import Mathlib

/-!
Verification of the license-key codec and validation layer (src/persistence.rs).

Modelling conventions (shallow embedding):
* Rust `String` values are modelled as their UTF-8 byte sequences, `List Nat`
  with every element below 256.  Equality of Rust strings coincides with
  equality of their byte sequences.
* Rust `u32` / `u64` are modelled as `Nat`; the bounds imposed by the Rust
  types appear as explicit well-formedness hypotheses (`wfData` etc.).
* Byte buffers (`Vec<u8>`) are `List Nat`.
* Fallible operations return `Option` or `Except`.
-/

/-- Kind of license.  Modelled from the spec: the enumeration lives in the
external `runtime` module (not under `src/`); the spec and the repository
tests only ever name the variant `Personal`, and a serde unit variant is
serialized as its name string. -/
inductive LicenseKind where
  | Personal
deriving DecidableEq

/-- Data of a licensed product (struct `LicensedProductData`), suitable for
being persisted, can be invalid.  `id` is the UTF-8 byte list of the product
id; the versions are `u32` values. -/
structure LicensedProductData where
  id : List Nat
  min_version : Nat
  max_version : Nat
deriving DecidableEq

/-- Data of a license payload (struct `LicensePayloadData`), suitable for
being persisted, can be invalid. -/
structure LicensePayloadData where
  name : List Nat
  email : List Nat
  kind : LicenseKind
  created_on : Nat
  products : List LicensedProductData
deriving DecidableEq

/-- Complete license data (struct `LicenseData`), suitable for being
persisted, can be invalid.  The signature is stored as text (byte list of the
signature string). -/
structure LicenseData where
  payload : LicensePayloadData
  signature : List Nat
deriving DecidableEq

/-- Opaque license key (struct `LicenseKey`): wraps the raw key text, here as
its byte list. -/
structure LicenseKey where
  raw : List Nat
deriving DecidableEq

/-! ## The base64 transport encoding

The code uses `base64::engine::general_purpose::URL_SAFE_NO_PAD`: the URL-safe
alphabet (`A`-`Z`, `a`-`z`, `0`-`9`, `-`, `_`), no padding on encode, and on
decode padding is refused (`DecodePaddingMode::RequireNone`), characters
outside the alphabet are refused, a leftover of one character is refused, and
non-zero trailing bits in the final character are refused
(`decode_allow_trailing_bits` is false). -/

/-- URL-safe base64 alphabet: sextet value to ASCII code. -/
def encChar (n : Nat) : Nat :=
  if n < 26 then 65 + n
  else if n < 52 then 97 + (n - 26)
  else if n < 62 then 48 + (n - 52)
  else if n = 62 then 45
  else 95

/-- Inverse alphabet lookup; `none` for any character outside the URL-safe
alphabet.  In particular the pad character `=` (61) and the standard-alphabet
characters `+` (43) and `/` (47) are refused. -/
def decChar (c : Nat) : Option Nat :=
  if 65 ≤ c ∧ c ≤ 90 then some (c - 65)
  else if 97 ≤ c ∧ c ≤ 122 then some (c - 97 + 26)
  else if 48 ≤ c ∧ c ≤ 57 then some (c - 48 + 52)
  else if c = 45 then some 62
  else if c = 95 then some 63
  else none

/-- Base64 encoding of a byte list, URL-safe alphabet, no padding. -/
def b64Encode : List Nat → List Nat
  | [] => []
  | [b] => [encChar (b / 4), encChar (b % 4 * 16)]
  | [b1, b2] =>
      [encChar (b1 / 4), encChar (b1 % 4 * 16 + b2 / 16), encChar (b2 % 16 * 4)]
  | b1 :: b2 :: b3 :: rest =>
      encChar (b1 / 4) :: encChar (b1 % 4 * 16 + b2 / 16) ::
      encChar (b2 % 16 * 4 + b3 / 64) :: encChar (b3 % 64) :: b64Encode rest

/-- Decode every character through the inverse alphabet; `none` as soon as one
character is not in the alphabet. -/
def mapDecode : List Nat → Option (List Nat)
  | [] => some []
  | c :: cs => do
    let s ← decChar c
    let rest ← mapDecode cs
    some (s :: rest)

/-- Regroup sextets into bytes.  A leftover of a single sextet is invalid, and
the unused low bits of the final sextet must be zero (the engine is configured
without `decode_allow_trailing_bits`). -/
def sextetsToBytes : List Nat → Option (List Nat)
  | [] => some []
  | [_] => none
  | [s1, s2] => if s2 % 16 = 0 then some [s1 * 4 + s2 / 16] else none
  | [s1, s2, s3] =>
      if s3 % 4 = 0 then some [s1 * 4 + s2 / 16, s2 % 16 * 16 + s3 / 4] else none
  | s1 :: s2 :: s3 :: s4 :: rest => do
    let tail ← sextetsToBytes rest
    some ((s1 * 4 + s2 / 16) :: (s2 % 16 * 16 + s3 / 4) :: (s3 % 4 * 64 + s4) :: tail)

/-- Base64 decoding (URL-safe alphabet, padding refused). -/
def b64Decode (cs : List Nat) : Option (List Nat) := do
  let sx ← mapDecode cs
  sextetsToBytes sx

/-! ## The MessagePack byte encoding

`to_key` serializes with `rmp_serde::to_vec_named` (a map-based encoding with
named fields, each scalar in its minimal representation) and `try_from_key`
deserializes with `rmp_serde::from_slice`.  The serde/rmp crates are external
to this repository; the functions below embed their behaviour on exactly the
`LicenseData` schema.  The model decoder expects the named fields in
declaration order — the order `to_vec_named` emits; the real deserializer
additionally tolerates permuted maps and positional arrays, which nothing
below depends on.  It does not check the end of input, as `from_slice` does
not. -/

/-- Big-endian bytes of a number, fixed width in bytes. -/
def beBytes : Nat → Nat → List Nat
  | 0, _ => []
  | k + 1, n => (n / 256 ^ k % 256) :: beBytes k n

/-- Read a fixed number of big-endian bytes, accumulating into a number. -/
def parseBE : Nat → Nat → List Nat → Option (Nat × List Nat)
  | 0, acc, bs => some (acc, bs)
  | _ + 1, _, [] => none
  | k + 1, acc, b :: bs => parseBE k (acc * 256 + b) bs

/-- Split off the first `n` bytes; `none` when the input is too short
(a truncated buffer). -/
def readN (n : Nat) (bs : List Nat) : Option (List Nat × List Nat) :=
  if n ≤ bs.length then some (bs.take n, bs.drop n) else none

/-- MessagePack header for a string of byte length `n`: fixstr, str8, str16 or
str32, the minimal form the rmp serializer emits; `none` when the length
exceeds the str32 limit (impossible for a Rust string in memory). -/
def strHeader (n : Nat) : Option (List Nat) :=
  if n < 32 then some [160 + n]
  else if n < 256 then some (217 :: beBytes 1 n)
  else if n < 65536 then some (218 :: beBytes 2 n)
  else if n < 4294967296 then some (219 :: beBytes 4 n)
  else none

/-- MessagePack encoding of a string (its UTF-8 bytes). -/
def encStr (s : List Nat) : Option (List Nat) :=
  (strHeader s.length).map (fun h => h ++ s)

/-- MessagePack encoding of an unsigned integer, minimal representation as
emitted by rmp `write_uint`; `none` beyond the u64 range (impossible for a
Rust `u64`). -/
def encUint (n : Nat) : Option (List Nat) :=
  if n < 128 then some [n]
  else if n < 256 then some (204 :: beBytes 1 n)
  else if n < 65536 then some (205 :: beBytes 2 n)
  else if n < 4294967296 then some (206 :: beBytes 4 n)
  else if n < 18446744073709551616 then some (207 :: beBytes 8 n)
  else none

/-- MessagePack header for an array of `n` elements, minimal form. -/
def arrHeader (n : Nat) : Option (List Nat) :=
  if n < 16 then some [144 + n]
  else if n < 65536 then some (220 :: beBytes 2 n)
  else if n < 4294967296 then some (221 :: beBytes 4 n)
  else none

/-- Map-key encoding used by `to_vec_named` for the short field-name strings
of this schema (always fixstr: every field name is shorter than 32 bytes). -/
def keyBytes (k : List Nat) : List Nat := (160 + k.length) :: k

/-- Parse a MessagePack string: fixstr, str8, str16 or str32 marker followed
by the length and that many bytes.  Fails on any other marker (a wrong field
type) and on truncated input. -/
def parseStr : List Nat → Option (List Nat × List Nat)
  | [] => none
  | m :: rest =>
    if 160 ≤ m ∧ m < 192 then readN (m - 160) rest
    else if m = 217 then do
      let (n, r) ← parseBE 1 0 rest
      readN n r
    else if m = 218 then do
      let (n, r) ← parseBE 2 0 rest
      readN n r
    else if m = 219 then do
      let (n, r) ← parseBE 4 0 rest
      readN n r
    else none

/-- Range check after reading an integer: deserializing into `u32` fails when
the encoded value does not fit (`bound` is `2 ^ 32` or `2 ^ 64`). -/
def checkLt (bound n : Nat) (r : List Nat) : Option (Nat × List Nat) :=
  if n < bound then some (n, r) else none

/-- Parse a MessagePack unsigned integer in any of the representations the
rmp serializer emits for `u32` / `u64` values (positive fixint, uint8,
uint16, uint32, uint64), checking the target-type bound. -/
def parseUint (bound : Nat) : List Nat → Option (Nat × List Nat)
  | [] => none
  | m :: rest =>
    if m < 128 then checkLt bound m rest
    else if m = 204 then do
      let (n, r) ← parseBE 1 0 rest
      checkLt bound n r
    else if m = 205 then do
      let (n, r) ← parseBE 2 0 rest
      checkLt bound n r
    else if m = 206 then do
      let (n, r) ← parseBE 4 0 rest
      checkLt bound n r
    else if m = 207 then do
      let (n, r) ← parseBE 8 0 rest
      checkLt bound n r
    else none

/-- Parse an array header, returning the element count. -/
def parseArrHeader : List Nat → Option (Nat × List Nat)
  | [] => none
  | m :: rest =>
    if 144 ≤ m ∧ m < 160 then some (m - 144, rest)
    else if m = 220 then parseBE 2 0 rest
    else if m = 221 then parseBE 4 0 rest
    else none

/-- Expect one exact byte (used for the constant fixmap headers of this
schema: a different map size means a missing or extra field). -/
def expectByte (b : Nat) : List Nat → Option (List Nat)
  | [] => none
  | c :: r => if c = b then some r else none

/-- Expect a specific map key (field name); any other well-formed string key
means a missing or reordered field and fails. -/
def expectKey (k : List Nat) (bs : List Nat) : Option (List Nat) :=
  match parseStr bs with
  | some (s, r) => if s = k then some r else none
  | none => none

/-- Byte list of the field name string, spelling out the ASCII codes. -/
def payloadKey : List Nat := [112, 97, 121, 108, 111, 97, 100]

/-- Field name bytes of the signature field. -/
def signatureKey : List Nat := [115, 105, 103, 110, 97, 116, 117, 114, 101]

/-- Field name bytes of the name field. -/
def nameKey : List Nat := [110, 97, 109, 101]

/-- Field name bytes of the email field. -/
def emailKey : List Nat := [101, 109, 97, 105, 108]

/-- Field name bytes of the kind field. -/
def kindKey : List Nat := [107, 105, 110, 100]

/-- Field name bytes of the created_on field. -/
def createdOnKey : List Nat := [99, 114, 101, 97, 116, 101, 100, 95, 111, 110]

/-- Field name bytes of the products field. -/
def productsKey : List Nat := [112, 114, 111, 100, 117, 99, 116, 115]

/-- Field name bytes of the id field. -/
def idKey : List Nat := [105, 100]

/-- Field name bytes of the min_version field. -/
def minVersionKey : List Nat := [109, 105, 110, 95, 118, 101, 114, 115, 105, 111, 110]

/-- Field name bytes of the max_version field. -/
def maxVersionKey : List Nat := [109, 97, 120, 95, 118, 101, 114, 115, 105, 111, 110]

/-- Byte list of the variant name string of `LicenseKind::Personal`. -/
def personalStr : List Nat := [80, 101, 114, 115, 111, 110, 97, 108]

/-- Serde serializes a unit enum variant as its name string. -/
def LicenseKind.enc : LicenseKind → List Nat
  | .Personal => keyBytes personalStr

/-- Deserialize a `LicenseKind`: a string equal to a variant name; any other
value is an unknown-variant error. -/
def parseKind (bs : List Nat) : Option (LicenseKind × List Nat) :=
  match parseStr bs with
  | some (s, r) => if s = personalStr then some (LicenseKind.Personal, r) else none
  | none => none

/-- MessagePack encoding of a `LicensedProductData`: a 3-entry map with named
fields in declaration order, as `to_vec_named` emits. -/
def encProduct (p : LicensedProductData) : Option (List Nat) := do
  let i ← encStr p.id
  let mn ← encUint p.min_version
  let mx ← encUint p.max_version
  some (131 :: (keyBytes idKey ++ i ++ keyBytes minVersionKey ++ mn ++
    keyBytes maxVersionKey ++ mx))

/-- Concatenated encodings of the products of a list. -/
def encProductList : List LicensedProductData → Option (List Nat)
  | [] => some []
  | p :: ps => do
    let e ← encProduct p
    let es ← encProductList ps
    some (e ++ es)

/-- MessagePack encoding of a `LicensePayloadData`: a 5-entry map with named
fields in declaration order. -/
def encPayload (p : LicensePayloadData) : Option (List Nat) := do
  let n ← encStr p.name
  let e ← encStr p.email
  let c ← encUint p.created_on
  let h ← arrHeader p.products.length
  let ps ← encProductList p.products
  some (133 :: (keyBytes nameKey ++ n ++ keyBytes emailKey ++ e ++
    keyBytes kindKey ++ p.kind.enc ++ keyBytes createdOnKey ++ c ++
    keyBytes productsKey ++ h ++ ps))

/-- MessagePack encoding of a `LicenseData`: a 2-entry map with named fields
in declaration order. -/
def encLicenseData (d : LicenseData) : Option (List Nat) := do
  let p ← encPayload d.payload
  let s ← encStr d.signature
  some (130 :: (keyBytes payloadKey ++ p ++ keyBytes signatureKey ++ s))

/-- Parse a `LicensedProductData`. -/
def parseProduct (bs : List Nat) : Option (LicensedProductData × List Nat) := do
  let r0 ← expectByte 131 bs
  let r1 ← expectKey idKey r0
  let (i, r2) ← parseStr r1
  let r3 ← expectKey minVersionKey r2
  let (mn, r4) ← parseUint 4294967296 r3
  let r5 ← expectKey maxVersionKey r4
  let (mx, r6) ← parseUint 4294967296 r5
  some (⟨i, mn, mx⟩, r6)

/-- Parse a given number of consecutive products. -/
def parseProducts : Nat → List Nat → Option (List LicensedProductData × List Nat)
  | 0, bs => some ([], bs)
  | n + 1, bs => do
    let (p, r) ← parseProduct bs
    let (ps, r2) ← parseProducts n r
    some (p :: ps, r2)

/-- Parse a `LicensePayloadData`. -/
def parsePayload (bs : List Nat) : Option (LicensePayloadData × List Nat) := do
  let r0 ← expectByte 133 bs
  let r1 ← expectKey nameKey r0
  let (n, r2) ← parseStr r1
  let r3 ← expectKey emailKey r2
  let (e, r4) ← parseStr r3
  let r5 ← expectKey kindKey r4
  let (k, r6) ← parseKind r5
  let r7 ← expectKey createdOnKey r6
  let (c, r8) ← parseUint 18446744073709551616 r7
  let r9 ← expectKey productsKey r8
  let (cnt, r10) ← parseArrHeader r9
  let (ps, r11) ← parseProducts cnt r10
  some (⟨n, e, k, c, ps⟩, r11)

/-- Parse a `LicenseData`. -/
def parseLicenseData (bs : List Nat) : Option (LicenseData × List Nat) := do
  let r0 ← expectByte 130 bs
  let r1 ← expectKey payloadKey r0
  let (p, r2) ← parsePayload r1
  let r3 ← expectKey signatureKey r2
  let (s, r4) ← parseStr r3
  some (⟨p, s⟩, r4)

/-! ## The codec boundary (`to_key` / `try_from_key`) -/

/-- The two failure stages of `try_from_key`.  The code returns untyped
`anyhow` errors; the stages are distinguished by which step produced them:
the base64 transport decode or the MessagePack byte decode. -/
inductive DecodeError where
  | MalformedToken
  | MalformedPayload
deriving DecidableEq

/-- `LicenseKey::new`. -/
def LicenseKey.new (raw : List Nat) : LicenseKey := ⟨raw⟩

/-- `LicenseData::to_key`: serialize with `rmp_serde::to_vec_named`, then
base64-encode.  The `Option` is the domain of the `.unwrap()` in the code:
`none` exactly when the byte serializer would fail. -/
def LicenseData.to_key (d : LicenseData) : Option LicenseKey :=
  (encLicenseData d).map (fun bs => ⟨b64Encode bs⟩)

/-- `LicenseData::try_from_key`: base64-decode the key text, then byte-decode
the result. -/
def LicenseData.try_from_key (key : LicenseKey) : Except DecodeError LicenseData :=
  match b64Decode key.raw with
  | none => .error .MalformedToken
  | some bytes =>
    match parseLicenseData bytes with
    | none => .error .MalformedPayload
    | some (data, _) => .ok data

/-! ## Well-formedness

The bounds that the Rust types impose automatically: string bytes are `u8`
and string lengths fit `u32` (the msgpack str32 limit, far above anything a
real license holds), the version fields are `u32`, the timestamp is `u64`. -/

/-- A modelled Rust string: bytes below 256, length within the str32 limit. -/
def wfString (s : List Nat) : Bool :=
  decide (s.length < 4294967296) && s.all (fun b => decide (b < 256))

/-- Well-typedness of a product record. -/
def wfProduct (p : LicensedProductData) : Bool :=
  wfString p.id && decide (p.min_version < 4294967296) &&
    decide (p.max_version < 4294967296)

/-- Well-typedness of a payload record. -/
def wfPayload (p : LicensePayloadData) : Bool :=
  wfString p.name && wfString p.email &&
    decide (p.created_on < 18446744073709551616) &&
    decide (p.products.length < 4294967296) && p.products.all wfProduct

/-- Well-typedness of a license record. -/
def wfData (d : LicenseData) : Bool :=
  wfPayload d.payload && wfString d.signature

/-! ## Validation Rules

The `validator` derive on the structs: `#[validate(length(min = 1))]` on
name, products and signature, `#[validate(email)]` on email, the nested
`#[validate]` on payload and products, and the schema function
`validate_product` (`min_version > max_version` is `invalid_version_range`).
Each failed rule contributes an error naming the offending field/rule; the
derive collects them all.  The model flattens the collected errors into a
list of tags. -/

/-- The validation failures, tagged by offending field and rule. -/
inductive VErr where
  | emptyName
  | invalidEmail
  | emptyProducts
  | emptyProductId
  | invalidVersionRange
  | emptySignature
deriving DecidableEq

/-- Split a byte list at the last occurrence of `sep`: the bytes before it
and after it; `none` when `sep` does not occur. -/
def lastSplitAt (sep : Nat) : List Nat → Option (List Nat × List Nat)
  | [] => none
  | b :: rest =>
    match lastSplitAt sep rest with
    | some (pre, post) => some (b :: pre, post)
    | none => if b = sep then some ([], rest) else none

/-- Modelled from the spec: the email grammar of the external `validator`
crate is not part of this repository; the spec describes it as local-part,
`@`, domain, with at least one `.` in the domain (the split is at the last
`@`, as the crate does). -/
def isValidEmail (e : List Nat) : Bool :=
  match lastSplitAt 64 e with
  | none => false
  | some (localPart, domainPart) =>
    !localPart.isEmpty && !domainPart.isEmpty && domainPart.contains 46

/-- Validation of a product record: non-empty id, `min_version` at most
`max_version` (`validate_product`). -/
def validateProductData (p : LicensedProductData) : List VErr :=
  (if p.id.length = 0 then [VErr.emptyProductId] else []) ++
    (if p.min_version > p.max_version then [VErr.invalidVersionRange] else [])

/-- Validation of a payload record: non-empty name, email grammar, non-empty
product list, and every contained product. -/
def validatePayloadData (p : LicensePayloadData) : List VErr :=
  (if p.name.length = 0 then [VErr.emptyName] else []) ++
    (if isValidEmail p.email then [] else [VErr.invalidEmail]) ++
    (if p.products.length = 0 then [VErr.emptyProducts] else []) ++
    p.products.flatMap validateProductData

/-- Validation of a full license record: the nested payload plus the
non-empty signature text. -/
def validateLicenseData (d : LicenseData) : List VErr :=
  validatePayloadData d.payload ++
    (if d.signature.length = 0 then [VErr.emptySignature] else [])

/-! ## The trusted domain objects and the Domain Bridge

The domain types live in the external `crate::runtime` module, which is not
under `src/`; they are modelled from the spec: a payload with the same owner,
kind, timestamp and product fields, and a license holding a payload plus the
signature as raw bytes, with a constructor `License::new` that accepts them
without re-validating. -/

/-- Modelled from the spec: the trusted licensed-product domain object. -/
structure LicensedProduct where
  id : List Nat
  min_version : Nat
  max_version : Nat
deriving DecidableEq

/-- Modelled from the spec: the trusted license-payload domain object. -/
structure LicensePayload where
  name : List Nat
  email : List Nat
  kind : LicenseKind
  created_on : Nat
  products : List LicensedProduct
deriving DecidableEq

/-- Modelled from the spec: the trusted license domain object; the signature
is an opaque raw byte sequence. -/
structure License where
  payload : LicensePayload
  signature : List Nat
deriving DecidableEq

/-- Field-wise copy of a product into the domain type (the body of the
`TryFrom<LicensePayloadData>` products map). -/
def LicensedProduct.fromData (q : LicensedProductData) : LicensedProduct :=
  ⟨q.id, q.min_version, q.max_version⟩

/-- Field-wise copy of a payload into the domain type. -/
def LicensePayload.fromData (p : LicensePayloadData) : LicensePayload :=
  ⟨p.name, p.email, p.kind, p.created_on, p.products.map LicensedProduct.fromData⟩

/-- The failures of the conversion to the domain object.  The code returns
untyped `anyhow` errors; the constructors record which step produced them:
the validator (with the collected rule failures) or the base64 decode of the
signature text. -/
inductive BridgeError where
  | ValidationFailed (errors : List VErr)
  | MalformedSignature
deriving DecidableEq

/-- `TryFrom<LicensePayloadData> for LicensePayload`: run the payload
validation, then copy the fields. -/
def LicensePayload.try_from (p : LicensePayloadData) : Except BridgeError LicensePayload :=
  if validatePayloadData p = [] then .ok (LicensePayload.fromData p)
  else .error (.ValidationFailed (validatePayloadData p))

/-- `TryFrom<LicenseData> for License`: validate the whole record, convert
the payload (which validates it again), base64-decode the signature text,
and construct the domain object from the payload and the raw signature
bytes. -/
def License.try_from (d : LicenseData) : Except BridgeError License :=
  if validateLicenseData d = [] then
    match LicensePayload.try_from d.payload with
    | .error e => .error e
    | .ok payload =>
      match b64Decode d.signature with
      | none => .error .MalformedSignature
      | some sig => .ok ⟨payload, sig⟩
  else .error (.ValidationFailed (validateLicenseData d))

/-- The conversion to the domain object fails with a validation error whose
collected failures contain the given tag. -/
def failsWith (d : LicenseData) (e : VErr) : Prop :=
  ∃ errs, License.try_from d = Except.error (BridgeError.ValidationFailed errs) ∧
    e ∈ errs

/-- `From<LicensePayload> for LicensePayloadData`: field-wise copy back. -/
def LicensePayloadData.fromDomain (p : LicensePayload) : LicensePayloadData :=
  ⟨p.name, p.email, p.kind, p.created_on,
    p.products.map (fun q => ⟨q.id, q.min_version, q.max_version⟩)⟩

/-- `From<License> for LicenseData`: copy the payload and base64-encode the
signature bytes into the signature text. -/
def LicenseData.fromDomain (l : License) : LicenseData :=
  ⟨LicensePayloadData.fromDomain l.payload, b64Encode l.signature⟩

/-- Well-typedness of a domain license as the Rust types give it: a
well-formed payload copy, signature bytes below 256, and a signature length
small enough that its base64 text stays within the str32 limit. -/
def wfLicense (l : License) : Bool :=
  wfPayload (LicensePayloadData.fromDomain l.payload) &&
    l.signature.all (fun b => decide (b < 256)) &&
    decide (l.signature.length < 2147483648)

/-! ## Concrete inputs used by the witnesses and counterexamples -/

/-- The record of the repository tests: name "Joe", email "joe@example.org",
kind Personal, created_on 0, one product ("foo", 1, 1), signature text
"00010a". -/
def testRecord : LicenseData :=
  ⟨⟨[74, 111, 101],
    [106, 111, 101, 64, 101, 120, 97, 109, 112, 108, 101, 46, 111, 114, 103],
    LicenseKind.Personal, 0, [⟨[102, 111, 111], 1, 1⟩]⟩,
    [48, 48, 48, 49, 48, 97]⟩

/-- The key text the repository test `to_key` expects for `testRecord`. -/
def testKeyBytes : List Nat :=
  [103, 113, 100, 119, 89, 88, 108, 115, 98, 50, 70, 107, 104, 97, 82, 117,
   89, 87, 49, 108, 111, 48, 112, 118, 90, 97, 86, 108, 98, 87, 70, 112, 98,
   75, 57, 113, 98, 50, 86, 65, 90, 88, 104, 104, 98, 88, 66, 115, 90, 83,
   53, 118, 99, 109, 101, 107, 97, 50, 108, 117, 90, 75, 104, 81, 90, 88, 74,
   122, 98, 50, 53, 104, 98, 75, 112, 106, 99, 109, 86, 104, 100, 71, 86,
   107, 88, 50, 57, 117, 65, 75, 104, 119, 99, 109, 57, 107, 100, 87, 78, 48,
   99, 53, 71, 68, 111, 109, 108, 107, 111, 50, 90, 118, 98, 54, 116, 116,
   97, 87, 53, 102, 100, 109, 86, 121, 99, 50, 108, 118, 98, 103, 71, 114,
   98, 87, 70, 52, 88, 51, 90, 108, 99, 110, 78, 112, 98, 50, 52, 66, 113,
   88, 78, 112, 90, 50, 53, 104, 100, 72, 86, 121, 90, 97, 89, 119, 77, 68,
   65, 120, 77, 71, 69]

/-- Like `testRecord` but with signature text "aGVsbG8", the transport
encoding of the bytes of "hello" (from the repository deserialization
test). -/
def okSigRecord : LicenseData :=
  ⟨testRecord.payload, [97, 71, 86, 115, 98, 71, 56]⟩

/-- Like `testRecord` but with the undecodable one-character signature text
"a": non-empty, so validation passes, yet not valid base64. -/
def oddSigRecord : LicenseData :=
  ⟨testRecord.payload, [97]⟩

/-- A record violating several Validation Rules at once: empty name, email
"joe" without an at sign, one product with empty id and
`min_version > max_version`, signature "a". -/
def defectRecord : LicenseData :=
  ⟨⟨[], [106, 111, 101], LicenseKind.Personal, 0, [⟨[], 5, 1⟩]⟩, [97]⟩

/-- A record with an empty product list, an empty signature and an empty
name. -/
def emptyishRecord : LicenseData :=
  ⟨⟨[], [106, 111, 101], LicenseKind.Personal, 0, []⟩, []⟩

/-- A record that is structurally encodable but semantically invalid:
`min_version > max_version` in its product and an empty signature text. -/
def badRangeRecord : LicenseData :=
  ⟨⟨[74, 111, 101],
    [106, 111, 101, 64, 101, 120, 97, 109, 112, 108, 101, 46, 111, 114, 103],
    LicenseKind.Personal, 0, [⟨[102, 111, 111], 5, 1⟩]⟩, []⟩

/-- The trusted domain object matching `okSigRecord`: same payload fields,
signature bytes of "hello". -/
def testLicense : License :=
  ⟨⟨[74, 111, 101],
    [106, 111, 101, 64, 101, 120, 97, 109, 112, 108, 101, 46, 111, 114, 103],
    LicenseKind.Personal, 0, [⟨[102, 111, 111], 1, 1⟩]⟩,
    [104, 101, 108, 108, 111]⟩

/-- A key text produced by the v1 legacy generation: the standard-alphabet,
padded base64 of the JSON payload with name "Joe", email "joe@example.org",
kind Personal, one product ("foo", 1, 1) and hex signature "00010a".  The
final byte 61 is the pad character `=`. -/
def v1Key : LicenseKey :=
  ⟨[101, 121, 74, 119, 89, 88, 108, 115, 98, 50, 70, 107, 73, 106, 112, 55,
    73, 109, 53, 104, 98, 87, 85, 105, 79, 105, 74, 75, 98, 50, 85, 105, 76,
    67, 74, 108, 98, 87, 70, 112, 98, 67, 73, 54, 73, 109, 112, 118, 90, 85,
    66, 108, 101, 71, 70, 116, 99, 71, 120, 108, 76, 109, 57, 121, 90, 121,
    73, 115, 73, 109, 116, 112, 98, 109, 81, 105, 79, 105, 74, 81, 90, 88,
    74, 122, 98, 50, 53, 104, 98, 67, 73, 115, 73, 110, 66, 121, 98, 50, 82,
    49, 89, 51, 82, 122, 73, 106, 112, 98, 101, 121, 74, 112, 90, 67, 73, 54,
    73, 109, 90, 118, 98, 121, 73, 115, 73, 109, 49, 112, 98, 108, 57, 50,
    90, 88, 74, 122, 97, 87, 57, 117, 73, 106, 111, 120, 76, 67, 74, 116, 89,
    88, 104, 102, 100, 109, 86, 121, 99, 50, 108, 118, 98, 105, 73, 54, 77,
    88, 49, 100, 102, 83, 119, 105, 99, 50, 108, 110, 98, 109, 70, 48, 100,
    88, 74, 108, 73, 106, 111, 105, 77, 68, 65, 119, 77, 84, 66, 104, 73,
    110, 48, 61]⟩

/-- The record the v1 token of the legacy-compatibility property is supposed
to decode to. -/
def v1Record : LicenseData := testRecord

/-- MessagePack bytes of a license whose payload map has only four entries —
no `created_on` field, like a generation that did not persist the creation
timestamp. -/
def noTsBytes : List Nat :=
  130 :: (keyBytes payloadKey ++
    (132 :: (keyBytes nameKey ++ keyBytes [74, 111, 101] ++
      keyBytes emailKey ++
      keyBytes [106, 111, 101, 64, 101, 120, 97, 109, 112, 108, 101, 46, 111,
        114, 103] ++
      keyBytes kindKey ++ keyBytes personalStr ++
      keyBytes productsKey ++ [145, 131] ++
      keyBytes idKey ++ keyBytes [102, 111, 111] ++
      keyBytes minVersionKey ++ [1] ++ keyBytes maxVersionKey ++ [1])) ++
    keyBytes signatureKey ++ keyBytes [48, 48, 48, 49, 48, 97])

/-- The key wrapping `noTsBytes`. -/
def noTsKey : LicenseKey := ⟨b64Encode noTsBytes⟩

/-- A key text containing the character `!` (33), outside the URL-safe
alphabet. -/
def badAlphabetKey : LicenseKey := ⟨[33]⟩

/-- A key whose bytes are only a fixmap-2 header: a truncated payload. -/
def truncatedKey : LicenseKey := ⟨b64Encode [130]⟩

/-- A key whose bytes give the payload field the integer 0 instead of a map:
a wrong field type. -/
def wrongTypeKey : LicenseKey := ⟨b64Encode (130 :: (keyBytes payloadKey ++ [0]))⟩

theorem decChar_encChar {n : Nat} (h : n < 64) : decChar (encChar n) = some n := by
  interval_cases n <;> rfl

theorem encChar_lt (n : Nat) : encChar n < 256 := by
  unfold encChar; split_ifs <;> omega

theorem b64Encode_all_lt (bs : List Nat) : ∀ c ∈ b64Encode bs, c < 256 := by
  induction bs using b64Encode.induct with
  | case1 => intro c hc; simp [b64Encode] at hc
  | case2 b =>
      intro c hc
      simp only [b64Encode, List.mem_cons, List.not_mem_nil, or_false] at hc
      rcases hc with h | h <;> (subst h; exact encChar_lt _)
  | case3 b1 b2 =>
      intro c hc
      simp only [b64Encode, List.mem_cons, List.not_mem_nil, or_false] at hc
      rcases hc with h | h | h <;> (subst h; exact encChar_lt _)
  | case4 b1 b2 b3 rest ih =>
      intro c hc
      simp only [b64Encode, List.mem_cons] at hc
      rcases hc with h | h | h | h | h
      · subst h; exact encChar_lt _
      · subst h; exact encChar_lt _
      · subst h; exact encChar_lt _
      · subst h; exact encChar_lt _
      · exact ih c h

theorem b64Encode_length_le (bs : List Nat) : (b64Encode bs).length ≤ 2 * bs.length := by
  induction bs using b64Encode.induct with
  | case1 => simp [b64Encode]
  | case2 b => simp [b64Encode]
  | case3 b1 b2 => simp [b64Encode]
  | case4 b1 b2 b3 rest ih => simp only [b64Encode, List.length_cons]; omega

theorem b64_roundtrip (bs : List Nat) (h : ∀ b ∈ bs, b < 256) :
    b64Decode (b64Encode bs) = some bs := by
  induction bs using b64Encode.induct with
  | case1 => rfl
  | case2 b =>
      have hb : b < 256 := h b (by simp)
      have h1 : b / 4 < 64 := by omega
      have h2 : b % 4 * 16 < 64 := by omega
      simp only [b64Encode, b64Decode, mapDecode, decChar_encChar h1, decChar_encChar h2,
        Option.bind_eq_bind, Option.some_bind, sextetsToBytes]
      have : b % 4 * 16 % 16 = 0 := by omega
      rw [if_pos this]
      simp only [Option.some.injEq, List.cons.injEq, and_true]
      omega
  | case3 b1 b2 =>
      have hb1 : b1 < 256 := h b1 (by simp)
      have hb2 : b2 < 256 := h b2 (by simp)
      have h1 : b1 / 4 < 64 := by omega
      have h2 : b1 % 4 * 16 + b2 / 16 < 64 := by omega
      have h3 : b2 % 16 * 4 < 64 := by omega
      simp only [b64Encode, b64Decode, mapDecode, decChar_encChar h1, decChar_encChar h2,
        decChar_encChar h3, Option.bind_eq_bind, Option.some_bind, sextetsToBytes]
      have : b2 % 16 * 4 % 4 = 0 := by omega
      rw [if_pos this]
      simp only [Option.some.injEq, List.cons.injEq, and_true]
      omega
  | case4 b1 b2 b3 rest ih =>
      have hb1 : b1 < 256 := h b1 (by simp)
      have hb2 : b2 < 256 := h b2 (by simp)
      have hb3 : b3 < 256 := h b3 (by simp)
      have hrest : ∀ b ∈ rest, b < 256 := fun b hb => h b (by simp [hb])
      have ih2 := ih hrest
      have h1 : b1 / 4 < 64 := by omega
      have h2 : b1 % 4 * 16 + b2 / 16 < 64 := by omega
      have h3 : b2 % 16 * 4 + b3 / 64 < 64 := by omega
      have h4 : b3 % 64 < 64 := by omega
      simp only [b64Decode, Option.bind_eq_bind] at ih2
      rcases hmx : mapDecode (b64Encode rest) with _ | sx
      · rw [hmx] at ih2; simp at ih2
      · rw [hmx] at ih2
        simp only [Option.some_bind] at ih2
        simp only [b64Encode, b64Decode, mapDecode, decChar_encChar h1, decChar_encChar h2,
          decChar_encChar h3, decChar_encChar h4, Option.bind_eq_bind, Option.some_bind, hmx,
          sextetsToBytes, ih2]
        simp only [Option.some.injEq, List.cons.injEq]
        refine ⟨by omega, by omega, by omega, trivial⟩

theorem parseBE_beBytes (k : Nat) :
    ∀ (acc n : Nat) (rest : List Nat),
      parseBE k acc (beBytes k n ++ rest) = some (acc * 256 ^ k + n % 256 ^ k, rest) := by
  induction k with
  | zero => intro acc n rest; simp [beBytes, parseBE, Nat.mod_one]
  | succ k ih =>
      intro acc n rest
      simp only [beBytes, List.cons_append, parseBE, List.append_eq, ih]
      have h : n % 256 ^ (k + 1) = n % 256 ^ k + 256 ^ k * (n / 256 ^ k % 256) := by
        rw [pow_succ, Nat.mod_mul]
      rw [h, pow_succ]
      simp only [Option.some.injEq, Prod.mk.injEq, and_true]
      ring

theorem parseBE_beBytes_lt {k n : Nat} (h : n < 256 ^ k) (rest : List Nat) :
    parseBE k 0 (beBytes k n ++ rest) = some (n, rest) := by
  rw [parseBE_beBytes, Nat.mod_eq_of_lt h, Nat.zero_mul, Nat.zero_add]

theorem readN_append (s rest : List Nat) : readN s.length (s ++ rest) = some (s, rest) := by
  unfold readN
  rw [if_pos (by simp)]
  simp

theorem parseStr_encStr {s e : List Nat} (h : encStr s = some e) (rest : List Nat) :
    parseStr (e ++ rest) = some (s, rest) := by
  unfold encStr strHeader at h
  split_ifs at h with h1 h2 h3 h4
  · obtain rfl : e = (160 + s.length) :: s := by simpa using h.symm
    simp only [List.cons_append, parseStr]
    rw [if_pos ⟨by omega, by omega⟩]
    have h5 : 160 + s.length - 160 = s.length := by omega
    rw [h5, readN_append]
  · obtain rfl : e = (217 :: beBytes 1 s.length) ++ s := by simpa using h.symm
    simp only [List.cons_append, List.append_assoc, parseStr]
    rw [if_pos trivial]
    simp only [Option.bind_eq_bind]
    rw [parseBE_beBytes_lt (by norm_num; omega)]
    simp only [Option.some_bind]
    simpa using readN_append s rest
  · obtain rfl : e = (218 :: beBytes 2 s.length) ++ s := by simpa using h.symm
    simp only [List.cons_append, List.append_assoc, parseStr]
    rw [if_pos trivial]
    simp only [Option.bind_eq_bind]
    rw [parseBE_beBytes_lt (by norm_num; omega)]
    simp only [Option.some_bind]
    simpa using readN_append s rest
  · obtain rfl : e = (219 :: beBytes 4 s.length) ++ s := by simpa using h.symm
    simp only [List.cons_append, List.append_assoc, parseStr]
    rw [if_pos trivial]
    simp only [Option.bind_eq_bind]
    rw [parseBE_beBytes_lt (by norm_num; omega)]
    simp only [Option.some_bind]
    simpa using readN_append s rest
  · simp at h

theorem parseUint_encUint {n : Nat} {e : List Nat} {bound : Nat}
    (h : encUint n = some e) (hb : n < bound) (rest : List Nat) :
    parseUint bound (e ++ rest) = some (n, rest) := by
  unfold encUint at h
  split_ifs at h with h1 h2 h3 h4 h5
  · obtain rfl : e = [n] := by simpa using h.symm
    simp only [List.cons_append, List.nil_append, parseUint]
    rw [if_pos h1]
    simp [checkLt, hb]
  · obtain rfl : e = 204 :: beBytes 1 n := by simpa using h.symm
    simp only [List.cons_append, parseUint]
    rw [if_pos trivial]
    simp only [Option.bind_eq_bind]
    rw [parseBE_beBytes_lt (by norm_num; omega)]
    simp only [Option.some_bind]
    simp [checkLt, hb]
  · obtain rfl : e = 205 :: beBytes 2 n := by simpa using h.symm
    simp only [List.cons_append, parseUint]
    rw [if_pos trivial]
    simp only [Option.bind_eq_bind]
    rw [parseBE_beBytes_lt (by norm_num; omega)]
    simp only [Option.some_bind]
    simp [checkLt, hb]
  · obtain rfl : e = 206 :: beBytes 4 n := by simpa using h.symm
    simp only [List.cons_append, parseUint]
    rw [if_pos trivial]
    simp only [Option.bind_eq_bind]
    rw [parseBE_beBytes_lt (by norm_num; omega)]
    simp only [Option.some_bind]
    simp [checkLt, hb]
  · obtain rfl : e = 207 :: beBytes 8 n := by simpa using h.symm
    simp only [List.cons_append, parseUint]
    rw [if_pos trivial]
    simp only [Option.bind_eq_bind]
    rw [parseBE_beBytes_lt (by norm_num; omega)]
    simp only [Option.some_bind]
    simp [checkLt, hb]

theorem parseArrHeader_arrHeader {n : Nat} {e : List Nat}
    (h : arrHeader n = some e) (rest : List Nat) :
    parseArrHeader (e ++ rest) = some (n, rest) := by
  unfold arrHeader at h
  split_ifs at h with h1 h2 h3
  · obtain rfl : e = [144 + n] := by simpa using h.symm
    simp only [List.cons_append, List.nil_append, parseArrHeader]
    rw [if_pos ⟨by omega, by omega⟩]
    simp only [Option.some.injEq, Prod.mk.injEq, and_true]
    omega
  · obtain rfl : e = 220 :: beBytes 2 n := by simpa using h.symm
    simp only [List.cons_append, parseArrHeader]
    rw [if_pos trivial]
    rw [parseBE_beBytes_lt (by norm_num; omega)]
    rw [if_neg (by norm_num)]
  · obtain rfl : e = 221 :: beBytes 4 n := by simpa using h.symm
    simp only [List.cons_append, parseArrHeader]
    rw [if_pos trivial]
    rw [parseBE_beBytes_lt (by norm_num; omega)]
    rw [if_neg (by norm_num), if_neg (by norm_num)]

theorem parseStr_keyBytes {k : List Nat} (h : k.length < 32) (rest : List Nat) :
    parseStr (keyBytes k ++ rest) = some (k, rest) := by
  simp only [keyBytes, List.cons_append, parseStr]
  rw [if_pos ⟨by omega, by omega⟩]
  have h2 : 160 + k.length - 160 = k.length := by omega
  rw [h2, readN_append]

theorem expectKey_keyBytes {k : List Nat} (h : k.length < 32) (rest : List Nat) :
    expectKey k (keyBytes k ++ rest) = some rest := by
  unfold expectKey
  rw [parseStr_keyBytes h]
  simp

theorem expectByte_cons (b : Nat) (rest : List Nat) :
    expectByte b (b :: rest) = some rest := by
  simp [expectByte]

theorem parseKind_enc (kd : LicenseKind) (rest : List Nat) :
    parseKind (LicenseKind.enc kd ++ rest) = some (kd, rest) := by
  cases kd
  unfold parseKind LicenseKind.enc
  rw [parseStr_keyBytes (by decide)]
  simp

theorem parseProduct_encProduct {p : LicensedProductData} {e : List Nat}
    (h : encProduct p = some e) (hmn : p.min_version < 4294967296)
    (hmx : p.max_version < 4294967296) (rest : List Nat) :
    parseProduct (e ++ rest) = some (p, rest) := by
  simp only [encProduct, Option.bind_eq_bind, Option.bind_eq_some, Option.some.injEq] at h
  obtain ⟨i, hi, mn, hmn2, mx, hmx2, rfl⟩ := h
  simp only [List.cons_append, List.append_assoc]
  simp only [parseProduct, Option.bind_eq_bind]
  rw [expectByte_cons]
  simp only [Option.some_bind]
  rw [expectKey_keyBytes (by decide)]
  simp only [Option.some_bind]
  rw [parseStr_encStr hi]
  simp only [Option.some_bind]
  rw [expectKey_keyBytes (by decide)]
  simp only [Option.some_bind]
  rw [parseUint_encUint hmn2 hmn]
  simp only [Option.some_bind]
  rw [expectKey_keyBytes (by decide)]
  simp only [Option.some_bind]
  rw [parseUint_encUint hmx2 hmx]
  simp only [Option.some_bind]

theorem parseProducts_encProductList {ps : List LicensedProductData} {e : List Nat}
    (h : encProductList ps = some e) (hwf : ∀ p ∈ ps, wfProduct p = true)
    (rest : List Nat) :
    parseProducts ps.length (e ++ rest) = some (ps, rest) := by
  induction ps generalizing e with
  | nil =>
      simp only [encProductList, Option.some.injEq] at h
      subst h
      simp [parseProducts]
  | cons p ps ih =>
      simp only [encProductList, Option.bind_eq_bind, Option.bind_eq_some,
        Option.some.injEq] at h
      obtain ⟨ep, hep, eps, heps, rfl⟩ := h
      have hp := hwf p (by simp)
      have hps : ∀ q ∈ ps, wfProduct q = true := fun q hq => hwf q (by simp [hq])
      simp only [wfProduct, Bool.and_eq_true, decide_eq_true_eq] at hp
      simp only [List.length_cons, parseProducts, Option.bind_eq_bind, List.append_assoc]
      rw [parseProduct_encProduct hep hp.1.2 hp.2]
      simp only [Option.some_bind]
      rw [ih heps hps]
      simp only [Option.some_bind]

theorem parsePayload_encPayload {p : LicensePayloadData} {e : List Nat}
    (h : encPayload p = some e) (hwf : wfPayload p = true) (rest : List Nat) :
    parsePayload (e ++ rest) = some (p, rest) := by
  simp only [encPayload, Option.bind_eq_bind, Option.bind_eq_some, Option.some.injEq] at h
  obtain ⟨n, hn, em, hem, c, hc, ah, hah, pl, hpl, rfl⟩ := h
  simp only [wfPayload, Bool.and_eq_true, decide_eq_true_eq, List.all_eq_true] at hwf
  simp only [List.cons_append, List.append_assoc]
  simp only [parsePayload, Option.bind_eq_bind]
  rw [expectByte_cons]
  simp only [Option.some_bind]
  rw [expectKey_keyBytes (by decide)]
  simp only [Option.some_bind]
  rw [parseStr_encStr hn]
  simp only [Option.some_bind]
  rw [expectKey_keyBytes (by decide)]
  simp only [Option.some_bind]
  rw [parseStr_encStr hem]
  simp only [Option.some_bind]
  rw [expectKey_keyBytes (by decide)]
  simp only [Option.some_bind]
  rw [parseKind_enc]
  simp only [Option.some_bind]
  rw [expectKey_keyBytes (by decide)]
  simp only [Option.some_bind]
  rw [parseUint_encUint hc hwf.1.1.2]
  simp only [Option.some_bind]
  rw [expectKey_keyBytes (by decide)]
  simp only [Option.some_bind]
  rw [parseArrHeader_arrHeader hah]
  simp only [Option.some_bind]
  rw [parseProducts_encProductList hpl hwf.2]
  simp only [Option.some_bind]

theorem parseLicenseData_enc {d : LicenseData} {e : List Nat}
    (h : encLicenseData d = some e) (hwf : wfData d = true) (rest : List Nat) :
    parseLicenseData (e ++ rest) = some (d, rest) := by
  simp only [encLicenseData, Option.bind_eq_bind, Option.bind_eq_some,
    Option.some.injEq] at h
  obtain ⟨p, hp, s, hs, rfl⟩ := h
  simp only [wfData, Bool.and_eq_true] at hwf
  simp only [List.cons_append, List.append_assoc]
  simp only [parseLicenseData, Option.bind_eq_bind]
  rw [expectByte_cons]
  simp only [Option.some_bind]
  rw [expectKey_keyBytes (by decide)]
  simp only [Option.some_bind]
  rw [parsePayload_encPayload hp hwf.1]
  simp only [Option.some_bind]
  rw [expectKey_keyBytes (by decide)]
  simp only [Option.some_bind]
  rw [parseStr_encStr hs]
  simp only [Option.some_bind]


theorem encStr_total {s : List Nat} (h : s.length < 4294967296) :
    ∃ e, encStr s = some e := by
  unfold encStr strHeader
  split_ifs with h1 h2 h3
  all_goals exact ⟨_, rfl⟩

theorem encUint_total {n : Nat} (h : n < 18446744073709551616) :
    ∃ e, encUint n = some e := by
  unfold encUint
  split_ifs with h1 h2 h3 h4
  all_goals exact ⟨_, rfl⟩

theorem arrHeader_total {n : Nat} (h : n < 4294967296) :
    ∃ e, arrHeader n = some e := by
  unfold arrHeader
  split_ifs with h1 h2
  all_goals exact ⟨_, rfl⟩

theorem encProduct_total {p : LicensedProductData} (hwf : wfProduct p = true) :
    ∃ e, encProduct p = some e := by
  simp only [wfProduct, wfString, Bool.and_eq_true, decide_eq_true_eq] at hwf
  obtain ⟨i, hi⟩ := encStr_total hwf.1.1.1
  obtain ⟨mn, hmn⟩ := encUint_total (show p.min_version < 18446744073709551616 by omega)
  obtain ⟨mx, hmx⟩ := encUint_total (show p.max_version < 18446744073709551616 by omega)
  have : (encProduct p).isSome = true := by simp [encProduct, hi, hmn, hmx]
  exact Option.isSome_iff_exists.mp this

theorem encProductList_total {ps : List LicensedProductData}
    (hwf : ∀ p ∈ ps, wfProduct p = true) : ∃ e, encProductList ps = some e := by
  induction ps with
  | nil => exact ⟨[], rfl⟩
  | cons p ps ih =>
      obtain ⟨ep, hep⟩ := encProduct_total (hwf p (by simp))
      obtain ⟨eps, heps⟩ := ih (fun q hq => hwf q (by simp [hq]))
      have : (encProductList (p :: ps)).isSome = true := by
        simp [encProductList, hep, heps]
      exact Option.isSome_iff_exists.mp this

theorem encPayload_total {p : LicensePayloadData} (hwf : wfPayload p = true) :
    ∃ e, encPayload p = some e := by
  simp only [wfPayload, wfString, Bool.and_eq_true, decide_eq_true_eq,
    List.all_eq_true] at hwf
  obtain ⟨n, hn⟩ := encStr_total hwf.1.1.1.1.1
  obtain ⟨em, hem⟩ := encStr_total hwf.1.1.1.2.1
  obtain ⟨c, hc⟩ := encUint_total hwf.1.1.2
  obtain ⟨ah, hah⟩ := arrHeader_total hwf.1.2
  obtain ⟨pl, hpl⟩ := encProductList_total hwf.2
  have : (encPayload p).isSome = true := by simp [encPayload, hn, hem, hc, hah, hpl]
  exact Option.isSome_iff_exists.mp this

theorem encLicenseData_total {d : LicenseData} (hwf : wfData d = true) :
    ∃ e, encLicenseData d = some e := by
  simp only [wfData, Bool.and_eq_true] at hwf
  obtain ⟨p, hp⟩ := encPayload_total hwf.1
  have hs : d.signature.length < 4294967296 := by
    have h2 := hwf.2
    simp only [wfString, Bool.and_eq_true, decide_eq_true_eq] at h2
    exact h2.1
  obtain ⟨s, hsig⟩ := encStr_total hs
  have : (encLicenseData d).isSome = true := by simp [encLicenseData, hp, hsig]
  exact Option.isSome_iff_exists.mp this

theorem allLt_append {a b : List Nat} (ha : ∀ x ∈ a, x < 256)
    (hb : ∀ x ∈ b, x < 256) : ∀ x ∈ a ++ b, x < 256 := by
  intro x hx
  rcases List.mem_append.mp hx with h | h
  exacts [ha x h, hb x h]

theorem beBytes_all_lt (k n : Nat) : ∀ b ∈ beBytes k n, b < 256 := by
  induction k with
  | zero => intro b hb; simp [beBytes] at hb
  | succ k ih =>
      intro b hb
      simp only [beBytes, List.mem_cons] at hb
      rcases hb with rfl | hb
      · omega
      · exact ih b hb

theorem strHeader_all_lt {n : Nat} {h : List Nat} (hh : strHeader n = some h) :
    ∀ b ∈ h, b < 256 := by
  unfold strHeader at hh
  split_ifs at hh with h1 h2 h3 h4
  · obtain rfl : h = [160 + n] := by simpa using hh.symm
    intro b hb
    simp only [List.mem_cons, List.not_mem_nil, or_false] at hb
    subst hb; omega
  · obtain rfl : h = 217 :: beBytes 1 n := by simpa using hh.symm
    intro b hb
    rcases List.mem_cons.mp hb with rfl | hb
    · omega
    · exact beBytes_all_lt 1 n b hb
  · obtain rfl : h = 218 :: beBytes 2 n := by simpa using hh.symm
    intro b hb
    rcases List.mem_cons.mp hb with rfl | hb
    · omega
    · exact beBytes_all_lt 2 n b hb
  · obtain rfl : h = 219 :: beBytes 4 n := by simpa using hh.symm
    intro b hb
    rcases List.mem_cons.mp hb with rfl | hb
    · omega
    · exact beBytes_all_lt 4 n b hb

theorem encStr_all_lt {s e : List Nat} (he : encStr s = some e)
    (hs : ∀ b ∈ s, b < 256) : ∀ b ∈ e, b < 256 := by
  unfold encStr at he
  rcases hh : strHeader s.length with _ | hd
  · rw [hh] at he; simp at he
  · rw [hh] at he
    obtain rfl : e = hd ++ s := by simpa using he.symm
    exact allLt_append (strHeader_all_lt hh) hs

theorem encUint_all_lt {n : Nat} {e : List Nat} (he : encUint n = some e) :
    ∀ b ∈ e, b < 256 := by
  unfold encUint at he
  split_ifs at he with h1 h2 h3 h4 h5
  · obtain rfl : e = [n] := by simpa using he.symm
    intro b hb
    simp only [List.mem_cons, List.not_mem_nil, or_false] at hb
    subst hb; omega
  · obtain rfl : e = 204 :: beBytes 1 n := by simpa using he.symm
    intro b hb
    rcases List.mem_cons.mp hb with rfl | hb
    · omega
    · exact beBytes_all_lt 1 n b hb
  · obtain rfl : e = 205 :: beBytes 2 n := by simpa using he.symm
    intro b hb
    rcases List.mem_cons.mp hb with rfl | hb
    · omega
    · exact beBytes_all_lt 2 n b hb
  · obtain rfl : e = 206 :: beBytes 4 n := by simpa using he.symm
    intro b hb
    rcases List.mem_cons.mp hb with rfl | hb
    · omega
    · exact beBytes_all_lt 4 n b hb
  · obtain rfl : e = 207 :: beBytes 8 n := by simpa using he.symm
    intro b hb
    rcases List.mem_cons.mp hb with rfl | hb
    · omega
    · exact beBytes_all_lt 8 n b hb

theorem arrHeader_all_lt {n : Nat} {e : List Nat} (he : arrHeader n = some e) :
    ∀ b ∈ e, b < 256 := by
  unfold arrHeader at he
  split_ifs at he with h1 h2 h3
  · obtain rfl : e = [144 + n] := by simpa using he.symm
    intro b hb
    simp only [List.mem_cons, List.not_mem_nil, or_false] at hb
    subst hb; omega
  · obtain rfl : e = 220 :: beBytes 2 n := by simpa using he.symm
    intro b hb
    rcases List.mem_cons.mp hb with rfl | hb
    · omega
    · exact beBytes_all_lt 2 n b hb
  · obtain rfl : e = 221 :: beBytes 4 n := by simpa using he.symm
    intro b hb
    rcases List.mem_cons.mp hb with rfl | hb
    · omega
    · exact beBytes_all_lt 4 n b hb

theorem payloadKey_lt : ∀ b ∈ keyBytes payloadKey, b < 256 := by decide

theorem signatureKey_lt : ∀ b ∈ keyBytes signatureKey, b < 256 := by decide

theorem nameKey_lt : ∀ b ∈ keyBytes nameKey, b < 256 := by decide

theorem emailKey_lt : ∀ b ∈ keyBytes emailKey, b < 256 := by decide

theorem kindKey_lt : ∀ b ∈ keyBytes kindKey, b < 256 := by decide

theorem createdOnKey_lt : ∀ b ∈ keyBytes createdOnKey, b < 256 := by decide

theorem productsKey_lt : ∀ b ∈ keyBytes productsKey, b < 256 := by decide

theorem idKey_lt : ∀ b ∈ keyBytes idKey, b < 256 := by decide

theorem minVersionKey_lt : ∀ b ∈ keyBytes minVersionKey, b < 256 := by decide

theorem maxVersionKey_lt : ∀ b ∈ keyBytes maxVersionKey, b < 256 := by decide

theorem kindEnc_all_lt (k : LicenseKind) : ∀ b ∈ LicenseKind.enc k, b < 256 := by
  cases k
  decide

theorem keyBytes_all_lt {k : List Nat} (hlen : k.length < 96)
    (hk : ∀ b ∈ k, b < 256) : ∀ b ∈ keyBytes k, b < 256 := by
  intro b hb
  rcases List.mem_cons.mp hb with rfl | hb
  · omega
  · exact hk b hb

theorem encProduct_all_lt {p : LicensedProductData} {e : List Nat}
    (he : encProduct p = some e) (hwf : wfProduct p = true) : ∀ b ∈ e, b < 256 := by
  simp only [encProduct, Option.bind_eq_bind, Option.bind_eq_some,
    Option.some.injEq] at he
  obtain ⟨i, hi, mn, hmn, mx, hmx, rfl⟩ := he
  simp only [wfProduct, wfString, Bool.and_eq_true, decide_eq_true_eq,
    List.all_eq_true] at hwf
  intro b hb
  rcases List.mem_cons.mp hb with rfl | hb
  · omega
  · simp only [List.append_assoc] at hb
    exact allLt_append idKey_lt
      (allLt_append (encStr_all_lt hi hwf.1.1.2)
        (allLt_append minVersionKey_lt
          (allLt_append (encUint_all_lt hmn)
            (allLt_append maxVersionKey_lt (encUint_all_lt hmx))))) b hb

theorem encProductList_all_lt {ps : List LicensedProductData} {e : List Nat}
    (he : encProductList ps = some e) (hwf : ∀ p ∈ ps, wfProduct p = true) :
    ∀ b ∈ e, b < 256 := by
  induction ps generalizing e with
  | nil =>
      simp only [encProductList, Option.some.injEq] at he
      subst he
      intro b hb
      simp at hb
  | cons p ps ih =>
      simp only [encProductList, Option.bind_eq_bind, Option.bind_eq_some,
        Option.some.injEq] at he
      obtain ⟨ep, hep, eps, heps, rfl⟩ := he
      exact allLt_append (encProduct_all_lt hep (hwf p (by simp)))
        (ih heps (fun q hq => hwf q (by simp [hq])))

theorem encPayload_all_lt {p : LicensePayloadData} {e : List Nat}
    (he : encPayload p = some e) (hwf : wfPayload p = true) : ∀ b ∈ e, b < 256 := by
  simp only [encPayload, Option.bind_eq_bind, Option.bind_eq_some,
    Option.some.injEq] at he
  obtain ⟨n, hn, em, hem, c, hc, ah, hah, pl, hpl, rfl⟩ := he
  simp only [wfPayload, wfString, Bool.and_eq_true, decide_eq_true_eq,
    List.all_eq_true] at hwf
  intro b hb
  rcases List.mem_cons.mp hb with rfl | hb
  · omega
  · simp only [List.append_assoc] at hb
    exact allLt_append nameKey_lt
      (allLt_append (encStr_all_lt hn hwf.1.1.1.1.2)
        (allLt_append emailKey_lt
          (allLt_append (encStr_all_lt hem hwf.1.1.1.2.2)
            (allLt_append kindKey_lt
              (allLt_append (kindEnc_all_lt p.kind)
                (allLt_append createdOnKey_lt
                  (allLt_append (encUint_all_lt hc)
                    (allLt_append productsKey_lt
                      (allLt_append (arrHeader_all_lt hah)
                        (encProductList_all_lt hpl hwf.2)))))))))) b hb

theorem encLicenseData_all_lt {d : LicenseData} {e : List Nat}
    (he : encLicenseData d = some e) (hwf : wfData d = true) : ∀ b ∈ e, b < 256 := by
  simp only [encLicenseData, Option.bind_eq_bind, Option.bind_eq_some,
    Option.some.injEq] at he
  obtain ⟨p, hp, s, hs, rfl⟩ := he
  simp only [wfData, Bool.and_eq_true] at hwf
  have hsig : ∀ b ∈ d.signature, b < 256 := by
    have h2 := hwf.2
    simp only [wfString, Bool.and_eq_true, decide_eq_true_eq, List.all_eq_true] at h2
    exact h2.2
  intro b hb
  rcases List.mem_cons.mp hb with rfl | hb
  · omega
  · simp only [List.append_assoc] at hb
    exact allLt_append payloadKey_lt
      (allLt_append (encPayload_all_lt hp hwf.1)
        (allLt_append signatureKey_lt (encStr_all_lt hs hsig))) b hb

theorem roundtrip_aux {r : LicenseData} (h : wfData r = true) :
    ∃ k, r.to_key = some k ∧ LicenseData.try_from_key k = Except.ok r := by
  obtain ⟨bs, hbs⟩ := encLicenseData_total h
  refine ⟨⟨b64Encode bs⟩, ?_, ?_⟩
  · simp [LicenseData.to_key, hbs]
  · show LicenseData.try_from_key ⟨b64Encode bs⟩ = Except.ok r
    have hp := parseLicenseData_enc hbs h []
    rw [List.append_nil] at hp
    unfold LicenseData.try_from_key
    simp only [b64_roundtrip bs (encLicenseData_all_lt hbs h), hp]

theorem failsWith_of_mem {d : LicenseData} {e : VErr}
    (h : e ∈ validateLicenseData d) : failsWith d e := by
  refine ⟨validateLicenseData d, ?_, h⟩
  unfold License.try_from
  rw [if_neg (List.ne_nil_of_mem h)]

theorem validatePayload_nil {d : LicenseData} (h : validateLicenseData d = []) :
    validatePayloadData d.payload = [] := by
  unfold validateLicenseData at h
  exact (List.append_eq_nil.mp h).1

theorem payload_try_from_ok {p : LicensePayloadData} (h : validatePayloadData p = []) :
    LicensePayload.try_from p = Except.ok (LicensePayload.fromData p) := by
  unfold LicensePayload.try_from
  rw [if_pos h]

theorem prodMap_id (ps : List LicensedProduct) :
    List.map (LicensedProduct.fromData ∘ fun q =>
      (⟨q.id, q.min_version, q.max_version⟩ : LicensedProductData)) ps = ps := by
  induction ps with
  | nil => rfl
  | cons q ps ih => simp only [List.map_cons, ih]; rfl

theorem payload_fromData_fromDomain (p : LicensePayload) :
    LicensePayload.fromData (LicensePayloadData.fromDomain p) = p := by
  cases p with
  | mk nm em kd co ps =>
      simp [LicensePayload.fromData, LicensePayloadData.fromDomain, prodMap_id]

set_option maxRecDepth 100000 in
/-- The encoder of the model reproduces the exact key text the repository
test `to_key` asserts, byte for byte. -/
theorem to_key_matches_test_vector : testRecord.to_key = some ⟨testKeyBytes⟩ := by decide

set_option maxRecDepth 100000 in
/-- The decoder of the model decodes that key text back to the test record,
as the repository test `from_key` asserts. -/
theorem from_key_matches_test_vector :
    LicenseData.try_from_key ⟨testKeyBytes⟩ = Except.ok testRecord := by
  rfl

/-- Claim C1: for every (well-typed) `LicenseData` record `r`, decoding the
key produced by encoding it succeeds and returns the same record, all fields
included: `LicenseData::try_from_key(&r.to_key())` is `Ok(r)`. -/
theorem c1_key_roundtrip (r : LicenseData) (h : wfData r = true) :
    ∃ k, r.to_key = some k ∧ LicenseData.try_from_key k = Except.ok r :=
  roundtrip_aux h

set_option maxRecDepth 100000 in
theorem c1_key_roundtrip_witness :
    wfData testRecord = true ∧
      ∃ k, testRecord.to_key = some k ∧
        LicenseData.try_from_key k = Except.ok testRecord :=
  ⟨by decide, c1_key_roundtrip testRecord (by decide)⟩

/-- Claim C10: the codec round trip holds even for records that violate the
Validation Rules, because neither `to_key` nor `try_from_key` runs
validation. -/
theorem c10_invalid_roundtrip (r : LicenseData) (h : wfData r = true)
    (_hinv : validateLicenseData r ≠ []) :
    ∃ k, r.to_key = some k ∧ LicenseData.try_from_key k = Except.ok r :=
  roundtrip_aux h

set_option maxRecDepth 100000 in
theorem c10_invalid_roundtrip_witness :
    wfData badRangeRecord = true ∧ validateLicenseData badRangeRecord ≠ [] ∧
      ∃ k, badRangeRecord.to_key = some k ∧
        LicenseData.try_from_key k = Except.ok badRangeRecord :=
  ⟨by decide, by decide,
    c10_invalid_roundtrip badRangeRecord (by decide) (by decide)⟩

/-- Claim C5: a key text that is not valid under the URL-safe unpadded
base64 alphabet fails with the transport-decode error (`MalformedToken`),
and a key whose text transport-decodes to bytes on which the byte decoder
fails (truncated input, missing required field, wrong field type) fails with
the byte-decode error (`MalformedPayload`). -/
theorem c5_decode_errors (k : LicenseKey) :
    (b64Decode k.raw = none →
      LicenseData.try_from_key k = Except.error DecodeError.MalformedToken) ∧
    (∀ bs, b64Decode k.raw = some bs → parseLicenseData bs = none →
      LicenseData.try_from_key k = Except.error DecodeError.MalformedPayload) := by
  constructor
  · intro h
    unfold LicenseData.try_from_key
    rw [h]
  · intro bs h1 h2
    unfold LicenseData.try_from_key
    simp only [h1, h2]

set_option maxRecDepth 100000 in
theorem c5_decode_errors_witness :
    (b64Decode badAlphabetKey.raw = none ∧
      LicenseData.try_from_key badAlphabetKey =
        Except.error DecodeError.MalformedToken) ∧
    (b64Decode truncatedKey.raw = some [130] ∧ parseLicenseData [130] = none ∧
      LicenseData.try_from_key truncatedKey =
        Except.error DecodeError.MalformedPayload) ∧
    (b64Decode noTsKey.raw = some noTsBytes ∧ parseLicenseData noTsBytes = none ∧
      LicenseData.try_from_key noTsKey =
        Except.error DecodeError.MalformedPayload) ∧
    (b64Decode wrongTypeKey.raw = some (130 :: (keyBytes payloadKey ++ [0])) ∧
      parseLicenseData (130 :: (keyBytes payloadKey ++ [0])) = none ∧
      LicenseData.try_from_key wrongTypeKey =
        Except.error DecodeError.MalformedPayload) :=
  ⟨⟨by decide, (c5_decode_errors badAlphabetKey).1 (by decide)⟩,
   ⟨by decide, by decide,
     (c5_decode_errors truncatedKey).2 [130] (by decide) (by decide)⟩,
   ⟨by decide, by decide,
     (c5_decode_errors noTsKey).2 noTsBytes (by decide) (by decide)⟩,
   ⟨by decide, by decide,
     (c5_decode_errors wrongTypeKey).2 (130 :: (keyBytes payloadKey ++ [0]))
       (by decide) (by decide)⟩⟩

set_option maxRecDepth 100000 in
/-- Claim C8: decoding does not enforce the Validation Rules: a key whose
bytes are structurally well-formed but semantically invalid (a product with
`min_version > max_version` and an empty signature text) decodes successfully
to the invalid record, unchanged. -/
theorem c8_decode_skips_validation :
    (badRangeRecord.to_key).map LicenseData.try_from_key =
        some (Except.ok badRangeRecord) ∧
      validateLicenseData badRangeRecord ≠ [] := by
  constructor
  · rfl
  · decide

set_option maxRecDepth 100000 in
/-- Claim C2 is refuted: the v1 legacy token (standard-alphabet padded
base64 of a JSON payload) is not accepted by `LicenseData::try_from_key`; the
URL-safe no-padding transport decoder rejects it, so decoding fails with
`MalformedToken` instead of returning the v1 record. -/
theorem c2_counterexample :
    LicenseData.try_from_key v1Key = Except.error DecodeError.MalformedToken := by
  rfl

set_option maxRecDepth 100000 in
/-- Claim C2, amended: a token produced by the v1 legacy generation does not
decode via `LicenseData::try_from_key`.  Its text is rejected by the
transport decoder (the pad character is outside the URL-safe no-padding
alphabet), so the decoder fails with `MalformedToken` and never returns a
record; only the v2 generation (MessagePack bytes in URL-safe unpadded
base64) is supported. -/
theorem c2_v1_rejected :
    b64Decode v1Key.raw = none ∧
      LicenseData.try_from_key v1Key ≠ Except.ok v1Record := by
  constructor
  · decide
  · have h : LicenseData.try_from_key v1Key =
        Except.error DecodeError.MalformedToken := by rfl
    rw [h]
    intro hc
    exact Except.noConfusion hc

/-- Claim C3: each defect independently causes the conversion to the trusted
domain object to fail with a validation error naming the offending
field/rule: empty name, email outside the email grammar, empty product list,
an empty product id in any product, and `min_version > max_version` in any
product. -/
theorem c3_validation (d : LicenseData) :
    (d.payload.name = [] → failsWith d VErr.emptyName) ∧
    (isValidEmail d.payload.email = false → failsWith d VErr.invalidEmail) ∧
    (d.payload.products = [] → failsWith d VErr.emptyProducts) ∧
    (∀ p ∈ d.payload.products, p.id = [] → failsWith d VErr.emptyProductId) ∧
    (∀ p ∈ d.payload.products, p.min_version > p.max_version →
      failsWith d VErr.invalidVersionRange) := by
  refine ⟨?_, ?_, ?_, ?_, ?_⟩
  · intro hn
    apply failsWith_of_mem
    simp [validateLicenseData, validatePayloadData, hn]
  · intro he
    apply failsWith_of_mem
    simp [validateLicenseData, validatePayloadData, he]
  · intro hp
    apply failsWith_of_mem
    simp [validateLicenseData, validatePayloadData, hp]
  · intro p hp hid
    apply failsWith_of_mem
    have hmem : VErr.emptyProductId ∈ validateProductData p := by
      simp [validateProductData, hid]
    unfold validateLicenseData
    apply List.mem_append_left
    unfold validatePayloadData
    apply List.mem_append_right
    rw [List.mem_flatMap]
    exact ⟨p, hp, hmem⟩
  · intro p hp hgt
    apply failsWith_of_mem
    have hmem : VErr.invalidVersionRange ∈ validateProductData p := by
      unfold validateProductData
      apply List.mem_append_right
      simp [hgt]
    unfold validateLicenseData
    apply List.mem_append_left
    unfold validatePayloadData
    apply List.mem_append_right
    rw [List.mem_flatMap]
    exact ⟨p, hp, hmem⟩

theorem c3_validation_witness :
    failsWith defectRecord VErr.emptyName ∧
    failsWith defectRecord VErr.invalidEmail ∧
    failsWith emptyishRecord VErr.emptyProducts ∧
    failsWith defectRecord VErr.emptyProductId ∧
    failsWith defectRecord VErr.invalidVersionRange :=
  ⟨(c3_validation defectRecord).1 rfl,
   (c3_validation defectRecord).2.1 (by decide),
   (c3_validation emptyishRecord).2.2.1 rfl,
   (c3_validation defectRecord).2.2.2.1 ⟨[], 5, 1⟩ (by decide) rfl,
   (c3_validation defectRecord).2.2.2.2 ⟨[], 5, 1⟩ (by decide) (by decide)⟩

/-- Claim C6: for a record that passes all Validation Rules, the bridge
fails with `MalformedSignature` exactly when the signature text cannot be
transport-decoded; when it can, the conversion succeeds and the domain
object carries the payload fields and exactly the decoded raw signature
bytes. -/
theorem c6_signature_bridge (d : LicenseData) (h : validateLicenseData d = []) :
    (b64Decode d.signature = none →
      License.try_from d = Except.error BridgeError.MalformedSignature) ∧
    (∀ sig, b64Decode d.signature = some sig →
      License.try_from d =
        Except.ok ⟨LicensePayload.fromData d.payload, sig⟩) := by
  have hok := payload_try_from_ok (validatePayload_nil h)
  constructor
  · intro hs
    unfold License.try_from
    rw [if_pos h]
    simp only [hok, hs]
  · intro sig hs
    unfold License.try_from
    rw [if_pos h]
    simp only [hok, hs]

theorem c6_signature_bridge_witness :
    validateLicenseData oddSigRecord = [] ∧
    b64Decode oddSigRecord.signature = none ∧
    License.try_from oddSigRecord = Except.error BridgeError.MalformedSignature ∧
    validateLicenseData okSigRecord = [] ∧
    b64Decode okSigRecord.signature = some [104, 101, 108, 108, 111] ∧
    License.try_from okSigRecord =
      Except.ok ⟨LicensePayload.fromData okSigRecord.payload,
        [104, 101, 108, 108, 111]⟩ :=
  ⟨by decide, by decide,
   (c6_signature_bridge oddSigRecord (by decide)).1 (by decide),
   by decide, by decide,
   (c6_signature_bridge okSigRecord (by decide)).2
     [104, 101, 108, 108, 111] (by decide)⟩

/-- Claim C7: converting a valid trusted domain object to a `LicenseData`
record and back succeeds and reproduces the object: its payload fields and
its raw signature bytes. -/
theorem c7_domain_roundtrip (l : License) (hl : wfLicense l = true)
    (hv : validateLicenseData (LicenseData.fromDomain l) = []) :
    License.try_from (LicenseData.fromDomain l) = Except.ok l := by
  have hok := payload_try_from_ok (validatePayload_nil hv)
  have hsig : ∀ b ∈ l.signature, b < 256 := by
    simp only [wfLicense, Bool.and_eq_true, decide_eq_true_eq,
      List.all_eq_true] at hl
    exact hl.1.2
  unfold License.try_from
  rw [if_pos hv]
  simp only [hok]
  have hb : b64Decode (LicenseData.fromDomain l).signature = some l.signature := by
    show b64Decode (b64Encode l.signature) = some l.signature
    exact b64_roundtrip l.signature hsig
  simp only [hb]
  show Except.ok ⟨LicensePayload.fromData (LicensePayloadData.fromDomain l.payload),
    l.signature⟩ = Except.ok l
  rw [payload_fromData_fromDomain]

theorem c7_domain_roundtrip_witness :
    wfLicense testLicense = true ∧
    validateLicenseData (LicenseData.fromDomain testLicense) = [] ∧
    License.try_from (LicenseData.fromDomain testLicense) =
      Except.ok testLicense :=
  ⟨by decide, by decide, c7_domain_roundtrip testLicense (by decide) (by decide)⟩

/-- Claim C4: the encoding direction never fails on well-typed input: for
every well-typed record the byte serializer inside `to_key` succeeds (the
`.unwrap()` is unreachable), and `From<License>` produces a well-typed
record whose `to_key` succeeds as well. -/
theorem c4_encode_total (r : LicenseData) (l : License) (hr : wfData r = true)
    (hl : wfLicense l = true) :
    (r.to_key).isSome = true ∧
      wfData (LicenseData.fromDomain l) = true ∧
      ((LicenseData.fromDomain l).to_key).isSome = true := by
  have hwfd : wfData (LicenseData.fromDomain l) = true := by
    simp only [wfLicense, Bool.and_eq_true, decide_eq_true_eq,
      List.all_eq_true] at hl
    simp only [wfData, LicenseData.fromDomain, wfString, Bool.and_eq_true,
      decide_eq_true_eq, List.all_eq_true]
    refine ⟨hl.1.1, ?_, ?_⟩
    · have h1 := b64Encode_length_le l.signature
      have h2 := hl.2
      omega
    · intro b hb
      simpa using b64Encode_all_lt l.signature b hb
  refine ⟨?_, hwfd, ?_⟩
  · obtain ⟨bs, hbs⟩ := encLicenseData_total hr
    simp [LicenseData.to_key, hbs]
  · obtain ⟨bs, hbs⟩ := encLicenseData_total hwfd
    simp [LicenseData.to_key, hbs]

set_option maxRecDepth 100000 in
theorem c4_encode_total_witness :
    wfData testRecord = true ∧ wfLicense testLicense = true ∧
      ((testRecord.to_key).isSome = true ∧
        wfData (LicenseData.fromDomain testLicense) = true ∧
        ((LicenseData.fromDomain testLicense).to_key).isSome = true) :=
  ⟨by decide, by decide, c4_encode_total testRecord testLicense (by decide) (by decide)⟩

set_option maxRecDepth 100000 in
/-- Claim C9 is refuted: a token whose payload lacks a persisted creation
timestamp does not reach the bridge at all — `created_on` is a required
field, so the byte decoder rejects the payload with `MalformedPayload`
instead of succeeding. -/
theorem c9_counterexample :
    LicenseData.try_from_key noTsKey = Except.error DecodeError.MalformedPayload := by
  rfl

set_option maxRecDepth 100000 in
/-- Claim C9, amended: a payload without a persisted creation timestamp
cannot be decoded (`created_on` is a required field, so such a token fails
with `MalformedPayload`), and the bridge never substitutes the wall-clock
time: whenever the conversion to the domain object succeeds, the domain
object's `created_on` is copied verbatim from the record. -/
theorem c9_no_timestamp_backfill :
    (b64Decode noTsKey.raw = some noTsBytes ∧ parseLicenseData noTsBytes = none) ∧
    ∀ (d : LicenseData) (l : License), License.try_from d = Except.ok l →
      l.payload.created_on = d.payload.created_on := by
  constructor
  · exact ⟨by decide, by decide⟩
  · intro d l h
    unfold License.try_from at h
    by_cases hv : validateLicenseData d = []
    · rw [if_pos hv] at h
      rw [payload_try_from_ok (validatePayload_nil hv)] at h
      cases hsig : b64Decode d.signature with
      | none => rw [hsig] at h; exact absurd h (by simp)
      | some sig =>
          rw [hsig] at h
          simp only [Except.ok.injEq] at h
          subst h
          rfl
    · rw [if_neg hv] at h
      exact absurd h (by simp)

theorem c9_no_timestamp_backfill_witness :
    (⟨LicensePayload.fromData okSigRecord.payload,
        [104, 101, 108, 108, 111]⟩ : License).payload.created_on =
      okSigRecord.payload.created_on :=
  c9_no_timestamp_backfill.2 okSigRecord
    ⟨LicensePayload.fromData okSigRecord.payload, [104, 101, 108, 108, 111]⟩
    (by rfl)
